import Mathlib

set_option maxRecDepth 100000

/-!
Verification of the netcdf crate hyperslab addressing and typed data-transfer
engine against its natural-language specification.

The repository source available here is the crate root (lock gateway and the
short-name marshalling helper) together with the integration test suite.  The
variable / dimension / planner modules themselves are not present, so the
Hyperslab Planner, Shape Resolver, Dimension Model, Typed Transfer Layer and
Fill Policy are modelled from the specification, and the behaviour of the
model is checked on all concrete scenarios the test suite exercises.
-/

set_option autoImplicit false

namespace Netcdf

universe u v

/-- Modelled from the spec: the error taxonomy of section 7 of the missing
error module.  EngineError carries the numeric status code of the underlying
engine. -/
inductive Err where
  | notFound
  | alreadyExists
  | dimensionMismatch
  | ambiguous
  | invalidStride
  | typeMismatch
  | engineError (code : Int)
  | conversion
  | bufferLen
  | outOfRange
deriving DecidableEq, Repr

/-- Result of an operation: a recoverable error value, a fatal contract
violation (a panic in the source language), or success. -/
inductive Res (α : Type u) where
  | ok (a : α)
  | err (e : Err)
  | panicked
deriving DecidableEq, Repr

/-- Map a function over the success value of a result. -/
def Res.map {α β : Type u} (f : α → β) : Res α → Res β
  | .ok a => .ok (f a)
  | .err e => .err e
  | .panicked => .panicked

/-- Sequence two fallible operations. -/
def Res.bind {α β : Type u} : Res α → (α → Res β) → Res β
  | .ok a, f => f a
  | .err _e, _ => .err _e
  | .panicked, _ => .panicked

/-- Modelled from the spec: a dimension of the missing dimension module; it
has a current length and an unlimited flag fixed at creation. -/
structure Dim where
  len : Nat
  unlimited : Bool
deriving DecidableEq, Repr

/-- Modelled from the spec: a variable of the missing variable module.  The
engine state reachable through the variable handle is modelled as the ordered
axis list, the numeric fill value governing never-written cells, and the
association list of explicitly written cells (most recent write first). -/
structure Variable where
  dims : List Dim
  fill : Int
  cells : List (List Nat × Int)
deriving DecidableEq, Repr

/-- Modelled from the spec: the Shape Resolver; one length per axis, in
declaration order. -/
def Variable.shape (v : Variable) : List Nat := v.dims.map Dim.len

/-- Rank of a variable: the number of axes. -/
def Variable.rank (v : Variable) : Nat := v.dims.length

/-- Modelled from the spec: the total length of a variable is the product of
its shape (1 for rank 0). -/
def Variable.len (v : Variable) : Nat := v.shape.prod

/-- Look a cell up among the explicitly written cells. -/
def lookupCell : List (List Nat × Int) → List Nat → Option Int
  | [], _ => none
  | (i, x) :: rest, idx => if i = idx then some x else lookupCell rest idx

/-- Modelled from the spec: the Fill Policy in fill mode; a cell that was
allocated but never explicitly written reads back as the fill value. -/
def Variable.readCell (v : Variable) (idx : List Nat) : Int :=
  (lookupCell v.cells idx).getD v.fill

/-- Modelled from the spec: configuring the fill value of a variable. -/
def set_fill_value (v : Variable) (x : Int) : Variable :=
  { v with fill := x }

/-- Index vectors of a hyperslab in row-major order: the last declared axis
varies fastest. -/
def slabIndices : List Nat → List Nat → List Nat → List (List Nat)
  | [], [], [] => [[]]
  | s :: ss, c :: cs, t :: ts =>
      (List.range c).foldr
        (fun k acc => (slabIndices ss cs ts).map (fun rest => (s + k * t) :: rest) ++ acc)
        []
  | _, _, _ => []

/-- Write a buffer into the cells addressed by a list of index vectors, in
order. -/
def writeSlab : List (List Nat × Int) → List (List Nat) → List Int → List (List Nat × Int)
  | cells, i :: is, b :: bs => writeSlab ((i, b) :: cells) is bs
  | cells, _, _ => cells

/-- Modelled from the spec: per-axis counts defaulting to the remainder of
each axis from the start index (shape minus start). -/
def fixedCounts : List Dim → List Nat → List Nat
  | d :: ds, s :: ss => (d.len - s) :: fixedCounts ds ss
  | _, _ => []

/-- Position of the first unlimited axis, if any. -/
def firstUnlimited : List Dim → Option Nat
  | [] => none
  | d :: ds => if d.unlimited then some 0 else (firstUnlimited ds).map (· + 1)

/-- Modelled from the spec: the Hyperslab Planner count-inference rule for
writes with a flat buffer and no explicit count (the missing variable
module).  Zero unlimited axes: the buffer must exactly fill the remaining
extent.  Exactly one unlimited axis: its count is the buffer length divided
by the product of the other counts, and a non-exact division is an error.
Two or more unlimited axes: the request is rejected as Ambiguous. -/
def inferCounts (dims : List Dim) (start : List Nat) (bufLen : Nat) : Except Err (List Nat) :=
  if (dims.filter Dim.unlimited).length ≥ 2 then .error .ambiguous
  else if (dims.filter Dim.unlimited).length = 0 then
    if bufLen = (fixedCounts dims start).prod then .ok (fixedCounts dims start)
    else .error .bufferLen
  else
    match firstUnlimited dims with
    | none => .error .bufferLen
    | some i =>
      let p := ((fixedCounts dims start).eraseIdx i).prod
      if p ≠ 0 ∧ bufLen % p = 0 then .ok ((fixedCounts dims start).set i (bufLen / p))
      else .error .bufferLen

/-- Modelled from the spec: the count used for a write, either the validated
explicit count or the inferred one. -/
def countForWrite (v : Variable) (start : List Nat) (bufLen : Nat) :
    Option (List Nat) → Except Err (List Nat)
  | some c => if c.length = v.rank then .ok c else .error .dimensionMismatch
  | none => inferCounts v.dims start bufLen

/-- Per-axis write bounds: a fixed axis must contain the addressed extent; an
unlimited axis may always be grown. -/
def checkWriteBounds : List Dim → List Nat → List Nat → Bool
  | d :: ds, s :: ss, c :: cs =>
      (d.unlimited || decide (s + c ≤ d.len)) && checkWriteBounds ds ss cs
  | _, _, _ => true

/-- Modelled from the spec: growth of unlimited axes before a write; an
unlimited axis grows to the end of the addressed extent when that exceeds its
current length. -/
def growDims : List Dim → List Nat → List Nat → List Dim
  | d :: ds, s :: ss, c :: cs =>
      (if d.unlimited then { d with len := max d.len (s + c) } else d) :: growDims ds ss cs
  | ds, _, _ => ds

/-- Modelled from the spec: bulk put of a flat buffer (the missing variable
module).  A missing start defaults to all zeros; a missing count is inferred
by the planner; a buffer shorter than the count product is a fatal contract
violation; unlimited axes grow before the transfer. -/
def put_values (v : Variable) (buf : List Int) (start? count? : Option (List Nat)) :
    Res Variable :=
  if (start?.getD (List.replicate v.rank 0)).length ≠ v.rank then .err .dimensionMismatch
  else
    match countForWrite v (start?.getD (List.replicate v.rank 0)) buf.length count? with
    | .error e => .err e
    | .ok count =>
      if !checkWriteBounds v.dims (start?.getD (List.replicate v.rank 0)) count then
        .err .outOfRange
      else if buf.length < count.prod then .panicked
      else
        .ok { v with
              dims := growDims v.dims (start?.getD (List.replicate v.rank 0)) count,
              cells := writeSlab v.cells
                (slabIndices (start?.getD (List.replicate v.rank 0)) count
                  (List.replicate v.rank 1)) buf }

/-- Modelled from the spec: single-value put; the implicit count is 1 on
every axis, and each unlimited axis may grow to index plus one. -/
def put_value (v : Variable) (val : Int) (index? : Option (List Nat)) : Res Variable :=
  if (index?.getD (List.replicate v.rank 0)).length ≠ v.rank then .err .dimensionMismatch
  else if checkWriteBounds v.dims (index?.getD (List.replicate v.rank 0))
      (List.replicate v.rank 1) then
    .ok { v with
          dims := growDims v.dims (index?.getD (List.replicate v.rank 0))
            (List.replicate v.rank 1),
          cells := (index?.getD (List.replicate v.rank 0), val) :: v.cells }
  else .err .outOfRange

/-- Per-axis read bounds with stride: the last addressed index of a non-empty
extent must lie inside the axis. -/
def checkReadBounds : List Dim → List Nat → List Nat → List Nat → Bool
  | d :: ds, s :: ss, c :: cs, t :: ts =>
      (decide (c = 0) || decide (s + (c - 1) * t + 1 ≤ d.len)) && checkReadBounds ds ss cs ts
  | _, _, _, _ => true

/-- Modelled from the spec: single-value get; a missing index defaults to all
zeros. -/
def get_value (v : Variable) (index? : Option (List Nat)) : Res Int :=
  if (index?.getD (List.replicate v.rank 0)).length ≠ v.rank then .err .dimensionMismatch
  else if checkReadBounds v.dims (index?.getD (List.replicate v.rank 0))
      (List.replicate v.rank 1) (List.replicate v.rank 1) then
    .ok (v.readCell (index?.getD (List.replicate v.rank 0)))
  else .err .outOfRange

/-- Modelled from the spec: bulk read into a caller-supplied buffer of the
given length (the missing variable module).  A missing count defaults to the
remainder of each axis; a buffer shorter than the count product is a fatal
contract violation, never a recoverable error. -/
def values_to (v : Variable) (bufLen : Nat) (start? count? : Option (List Nat)) :
    Res (List Int) :=
  if (start?.getD (List.replicate v.rank 0)).length ≠ v.rank then .err .dimensionMismatch
  else
    match (match count? with
           | some c => if c.length = v.rank then Except.ok c
                       else Except.error Err.dimensionMismatch
           | none => Except.ok (fixedCounts v.dims (start?.getD (List.replicate v.rank 0)))) with
    | .error e => .err e
    | .ok count =>
      if !checkReadBounds v.dims (start?.getD (List.replicate v.rank 0)) count
          (List.replicate v.rank 1) then .err .outOfRange
      else if bufLen < count.prod then .panicked
      else
        .ok ((slabIndices (start?.getD (List.replicate v.rank 0)) count
          (List.replicate v.rank 1)).map v.readCell)

/-- Modelled from the spec: default counts of a strided operation are
computed against the strided extent of each axis. -/
def stridedDefaultCounts : List Dim → List Nat → List Nat → List Nat
  | d :: ds, s :: ss, t :: ts => ((d.len - s + t - 1) / t) :: stridedDefaultCounts ds ss ts
  | _, _, _ => []

/-- Modelled from the spec: strided bulk read into a caller-supplied buffer
(the missing variable module).  Stride values must be strictly positive;
counts default to the strided extent of each axis; a buffer shorter than the
count product is a fatal contract violation. -/
def values_strided_to (v : Variable) (bufLen : Nat) (start? count? : Option (List Nat))
    (stride : List Int) : Res (List Int) :=
  if stride.length ≠ v.rank then .err .dimensionMismatch
  else if !(stride.all fun t => decide (0 < t)) then .err .invalidStride
  else
    if (start?.getD (List.replicate v.rank 0)).length ≠ v.rank then .err .dimensionMismatch
    else
      match (match count? with
             | some c => if c.length = v.rank then Except.ok c
                         else Except.error Err.dimensionMismatch
             | none => Except.ok (stridedDefaultCounts v.dims
                 (start?.getD (List.replicate v.rank 0)) (stride.map Int.toNat))) with
      | .error e => .err e
      | .ok count =>
        if !checkReadBounds v.dims (start?.getD (List.replicate v.rank 0)) count
            (stride.map Int.toNat) then .err .outOfRange
        else if bufLen < count.prod then .panicked
        else
          .ok ((slabIndices (start?.getD (List.replicate v.rank 0)) count
            (stride.map Int.toNat)).map v.readCell)

/-- Maximum length of a short name, from the netcdf-sys constants used by the
crate root. -/
def NC_MAX_NAME : Nat := 256

/-- Engine status code for a name exceeding the maximum length. -/
def NC_EMAXNAME : Int := -53

/-- Position of the first zero byte of a byte string, embedding the position
scan of utils.short_name_to_bytes in the crate root. -/
def firstZeroPos : List Nat → Option Nat
  | [] => none
  | b :: rest => if b = 0 then some 0 else (firstZeroPos rest).map (· + 1)

/-- Pointwise bound stating that a write stays inside the current extent of
every axis, so no unlimited axis grows. -/
def withinCurrent : List Dim → List Nat → List Nat → Bool
  | d :: ds, s :: ss, c :: cs => decide (s + c ≤ d.len) && withinCurrent ds ss cs
  | _, _, _ => true

/-- The 6 by 12 fixed variable of the simple_xy test fixture. -/
def simpleXY : Variable := ⟨[⟨6, false⟩, ⟨12, false⟩], 0, []⟩

/-- Buffer filling simpleXY with the values 0 to 71. -/
def buf72 : List Int := (List.range 72).map Int.ofNat

/-- Variable over two unlimited axes with fill value 0, as in the
unlimited_dimension_multi_putting test. -/
def twoUnlim : Variable := set_fill_value ⟨[⟨0, true⟩, ⟨0, true⟩], 0, []⟩ 0

/-- Variable over one dimension of length 2 with fill value 1, as in the
more_fill_values test. -/
def fillVar : Variable := set_fill_value ⟨[⟨2, false⟩], 0, []⟩ 1

/-- The 3 by 5 by 9 fixed variable of the strided get_to_buffer test. -/
def var353 : Variable := ⟨[⟨3, false⟩, ⟨5, false⟩, ⟨9, false⟩], 0, []⟩

/-- Buffer filling var353 with the values 0 to 134. -/
def buf135 : List Int := (List.range 135).map Int.ofNat

/-- A zero-rank variable currently holding the value 6, as in the
single_length_variable test. -/
def scalarVar : Variable := ⟨[], 0, [([], 6)]⟩

/-- Embedding of utils.short_name_to_bytes from the crate root: names longer
than NC_MAX_NAME are rejected with the NC_EMAXNAME engine code; otherwise a
zero-initialised array of NC_MAX_NAME plus one bytes receives the name, and
the copy into the first len bytes is a fatal length-mismatch panic whenever
the scan length differs from the name length (a zero byte occurs in the
name). -/
def short_name_to_bytes (name : List Nat) : Res (List Nat) :=
  if name.length > NC_MAX_NAME then .err (.engineError NC_EMAXNAME)
  else
    if (firstZeroPos name).getD name.length = name.length then
      .ok (name ++ List.replicate (NC_MAX_NAME + 1 - name.length) 0)
    else .panicked

lemma filter_unlimited_eq_nil (l : List Dim) (h : ∀ d ∈ l, d.unlimited = false) :
    l.filter Dim.unlimited = [] := by
  induction l with
  | nil => rfl
  | cons d ds ih =>
      have hd : d.unlimited = false := h d (List.mem_cons_self d ds)
      simp [List.filter_cons, hd, ih (fun x hx => h x (List.mem_cons_of_mem d hx))]

lemma firstUnlimited_middle (pre post : List Dim) (u : Dim)
    (hpre : ∀ d ∈ pre, d.unlimited = false) (hu : u.unlimited = true) :
    firstUnlimited (pre ++ u :: post) = some pre.length := by
  induction pre with
  | nil => simp [firstUnlimited, hu]
  | cons d ds ih =>
      have hd : d.unlimited = false := hpre d (List.mem_cons_self d ds)
      simp [firstUnlimited, hd, ih (fun x hx => hpre x (List.mem_cons_of_mem d hx))]

lemma fixedCounts_zero (ds : List Dim) :
    fixedCounts ds (List.replicate ds.length 0) = ds.map Dim.len := by
  induction ds with
  | nil => rfl
  | cons d rest ih => simp [fixedCounts, List.replicate_succ, ih]

lemma eraseIdx_middle {α : Type u} (xs zs : List α) (y : α) :
    (xs ++ y :: zs).eraseIdx xs.length = xs ++ zs := by
  induction xs with
  | nil => rfl
  | cons x xs ih => simp [List.eraseIdx, ih]

lemma set_middle {α : Type u} (xs zs : List α) (y q : α) :
    (xs ++ y :: zs).set xs.length q = xs ++ q :: zs := by
  induction xs with
  | nil => rfl
  | cons x xs ih => simp [List.set, ih]

lemma checkWriteBounds_full (ds : List Dim) :
    checkWriteBounds ds (List.replicate ds.length 0) (ds.map Dim.len) = true := by
  induction ds with
  | nil => rfl
  | cons d rest ih => simp [checkWriteBounds, List.replicate_succ, ih]

lemma checkWriteBounds_middle (pre post : List Dim) (u : Dim) (q : Nat)
    (hu : u.unlimited = true) :
    checkWriteBounds (pre ++ u :: post) (List.replicate (pre ++ u :: post).length 0)
      (pre.map Dim.len ++ q :: post.map Dim.len) = true := by
  induction pre with
  | nil =>
      show ((u.unlimited || decide (0 + q ≤ u.len)) &&
          checkWriteBounds post (List.replicate post.length 0) (post.map Dim.len)) = true
      rw [hu, checkWriteBounds_full post]
      simp
  | cons d rest ih =>
      show ((d.unlimited || decide (0 + d.len ≤ d.len)) &&
          checkWriteBounds (rest ++ u :: post) (List.replicate (rest ++ u :: post).length 0)
            (rest.map Dim.len ++ q :: post.map Dim.len)) = true
      rw [ih]
      simp

lemma growDims_self (ds : List Dim) :
    growDims ds (List.replicate ds.length 0) (ds.map Dim.len) = ds := by
  induction ds with
  | nil => rfl
  | cons d rest ih =>
      show (if d.unlimited then { d with len := max d.len (0 + d.len) } else d)
          :: growDims rest (List.replicate rest.length 0) (rest.map Dim.len) = d :: rest
      rw [ih]
      obtain ⟨l, ul⟩ := d
      cases ul <;> simp

lemma growDims_middle (pre post : List Dim) (u : Dim) (q : Nat)
    (hpre : ∀ d ∈ pre, d.unlimited = false) (hu : u.unlimited = true) :
    growDims (pre ++ u :: post) (List.replicate (pre ++ u :: post).length 0)
      (pre.map Dim.len ++ q :: post.map Dim.len)
      = pre ++ { u with len := max u.len q } :: post := by
  induction pre with
  | nil =>
      show (if u.unlimited then { u with len := max u.len (0 + q) } else u)
          :: growDims post (List.replicate post.length 0) (post.map Dim.len)
          = { u with len := max u.len q } :: post
      rw [hu, growDims_self post]
      simp
  | cons d rest ih =>
      have hd : d.unlimited = false := hpre d (List.mem_cons_self d rest)
      show (if d.unlimited then { d with len := max d.len (0 + d.len) } else d)
          :: growDims (rest ++ u :: post) (List.replicate (rest ++ u :: post).length 0)
            (rest.map Dim.len ++ q :: post.map Dim.len)
          = d :: (rest ++ { u with len := max u.len q } :: post)
      rw [hd, ih (fun x hx => hpre x (List.mem_cons_of_mem d hx))]
      simp

lemma checkReadBounds_full (ds : List Dim) :
    checkReadBounds ds (List.replicate ds.length 0) (ds.map Dim.len)
      (List.replicate ds.length 1) = true := by
  induction ds with
  | nil => rfl
  | cons d rest ih =>
      cases hd : d.len with
      | zero => simp [checkReadBounds, List.replicate_succ, hd, ih]
      | succ n => simp [checkReadBounds, List.replicate_succ, hd, ih]

lemma checkWriteBounds_of_within (ds : List Dim) : ∀ ss cs : List Nat,
    withinCurrent ds ss cs = true → checkWriteBounds ds ss cs = true := by
  induction ds with
  | nil => intro ss cs _h; cases ss <;> cases cs <;> rfl
  | cons d rest ih =>
      intro ss cs h
      cases ss with
      | nil => cases cs <;> rfl
      | cons s ss2 =>
        cases cs with
        | nil => rfl
        | cons c cs2 =>
          simp only [withinCurrent, Bool.and_eq_true, decide_eq_true_eq] at h
          simp [checkWriteBounds, ih ss2 cs2 h.2, h.1]

lemma growDims_of_within (ds : List Dim) : ∀ ss cs : List Nat,
    withinCurrent ds ss cs = true → growDims ds ss cs = ds := by
  induction ds with
  | nil => intro ss cs _h; cases ss <;> cases cs <;> rfl
  | cons d rest ih =>
      intro ss cs h
      cases ss with
      | nil => cases cs <;> rfl
      | cons s ss2 =>
        cases cs with
        | nil => rfl
        | cons c cs2 =>
          simp only [withinCurrent, Bool.and_eq_true, decide_eq_true_eq] at h
          obtain ⟨l, ul⟩ := d
          cases ul <;> simp [growDims, ih ss2 cs2 h.2, Nat.max_eq_left h.1]

lemma all_pos_eq_false (l : List Int) (h : ∃ t ∈ l, t ≤ 0) :
    (l.all fun t => decide (0 < t)) = false := by
  induction l with
  | nil => rcases h with ⟨t, ht, _⟩; cases ht
  | cons a rest ih =>
      rcases h with ⟨t, ht, hle⟩
      rcases List.mem_cons.mp ht with h1 | h2
      · subst h1; simp [List.all_cons, not_lt.mpr hle]
      · simp [List.all_cons, ih ⟨t, h2, hle⟩]

lemma firstZeroPos_eq_none (l : List Nat) (h : ∀ b ∈ l, b ≠ 0) :
    firstZeroPos l = none := by
  induction l with
  | nil => rfl
  | cons b rest ih =>
      have hb : b ≠ 0 := h b (List.mem_cons_self b rest)
      simp [firstZeroPos, hb, ih (fun x hx => h x (List.mem_cons_of_mem b hx))]

lemma inferCounts_single (pre post : List Dim) (u : Dim) (L : Nat)
    (hpre : ∀ d ∈ pre, d.unlimited = false)
    (hpost : ∀ d ∈ post, d.unlimited = false)
    (hu : u.unlimited = true) :
    inferCounts (pre ++ u :: post) (List.replicate (pre ++ u :: post).length 0) L
      = if ((pre ++ post).map Dim.len).prod ≠ 0
            ∧ L % ((pre ++ post).map Dim.len).prod = 0
        then Except.ok (pre.map Dim.len
            ++ L / ((pre ++ post).map Dim.len).prod :: post.map Dim.len)
        else Except.error Err.bufferLen := by
  have hfil : (pre ++ u :: post).filter Dim.unlimited = [u] := by
    rw [List.filter_append, filter_unlimited_eq_nil pre hpre, List.filter_cons]
    simp [hu, filter_unlimited_eq_nil post hpost]
  have hfc : fixedCounts (pre ++ u :: post) (List.replicate (pre ++ u :: post).length 0)
      = pre.map Dim.len ++ u.len :: post.map Dim.len := by
    rw [fixedCounts_zero]
    simp
  have herase : (pre.map Dim.len ++ u.len :: post.map Dim.len).eraseIdx pre.length
      = (pre ++ post).map Dim.len := by
    have h := eraseIdx_middle (pre.map Dim.len) (post.map Dim.len) u.len
    rw [List.length_map] at h
    rw [h]
    simp
  have hset : (pre.map Dim.len ++ u.len :: post.map Dim.len).set pre.length
      (L / ((pre ++ post).map Dim.len).prod)
      = pre.map Dim.len
        ++ L / ((pre ++ post).map Dim.len).prod :: post.map Dim.len := by
    have h := set_middle (pre.map Dim.len) (post.map Dim.len) u.len
      (L / ((pre ++ post).map Dim.len).prod)
    rw [List.length_map] at h
    exact h
  simp only [inferCounts, hfil, hfc, firstUnlimited_middle pre post u hpre hu,
    herase, hset]
  simp

lemma put_values_ok (v : Variable) (buf : List Int) (start count : List Nat)
    (hs : start.length = v.rank) (hc : count.length = v.rank)
    (hbounds : checkWriteBounds v.dims start count = true)
    (hbuf : count.prod ≤ buf.length) :
    put_values v buf (some start) (some count)
      = .ok { v with
              dims := growDims v.dims start count,
              cells := writeSlab v.cells
                (slabIndices start count (List.replicate v.rank 1)) buf } := by
  simp only [put_values, countForWrite, Option.getD_some]
  rw [if_neg (by simp [hs]), if_pos hc]
  simp [hbounds, Nat.not_lt.mpr hbuf]

lemma put_values_infer_ok (v : Variable) (buf : List Int) (count : List Nat)
    (hinfer : inferCounts v.dims (List.replicate v.rank 0) buf.length = .ok count)
    (hbounds : checkWriteBounds v.dims (List.replicate v.rank 0) count = true)
    (hbuf : count.prod ≤ buf.length) :
    put_values v buf none none
      = .ok { v with
              dims := growDims v.dims (List.replicate v.rank 0) count,
              cells := writeSlab v.cells
                (slabIndices (List.replicate v.rank 0) count
                  (List.replicate v.rank 1)) buf } := by
  simp only [put_values, countForWrite, Option.getD_none]
  rw [if_neg (by simp), hinfer]
  simp [hbounds, Nat.not_lt.mpr hbuf]

lemma put_values_infer_error (v : Variable) (buf : List Int) (e : Err)
    (hinfer : inferCounts v.dims (List.replicate v.rank 0) buf.length = .error e) :
    put_values v buf none none = .err e := by
  simp only [put_values, countForWrite, Option.getD_none]
  rw [if_neg (by simp), hinfer]

/-- C1: a put with no explicit count on a variable with two or more unlimited
axes is rejected with the distinct Ambiguous error kind regardless of the
buffer, and the same put with an explicit count 1 by 4 of a 4-element buffer
succeeds and grows the two axes to lengths 1 and 4. -/
theorem multi_unlimited_ambiguous :
    (∀ (v : Variable) (buf : List Int) (start? : Option (List Nat)),
        2 ≤ (v.dims.filter Dim.unlimited).length →
        (start?.getD (List.replicate v.rank 0)).length = v.rank →
        put_values v buf start? none = .err .ambiguous)
    ∧ Res.map Variable.shape (put_values twoUnlim [0, 1, 2, 3] none (some [1, 4]))
        = .ok [1, 4] := by
  refine ⟨fun v buf start? h2 hlen => ?_, by decide⟩
  simp only [put_values, countForWrite]
  rw [if_neg (by simp [hlen])]
  unfold inferCounts
  rw [if_pos h2]

/-- C1 witness: the two-unlimited-axes scenario of the test suite, a
4-element put with no count. -/
theorem multi_unlimited_ambiguous_witness :
    put_values twoUnlim [0, 1, 2, 3] none none = .err .ambiguous :=
  multi_unlimited_ambiguous.1 twoUnlim [0, 1, 2, 3] none (by decide) (by decide)

/-- C2: with exactly one unlimited axis and no explicit count, the planner
infers the count of that axis as the buffer length divided by the product of
the other counts, grows the axis to that count when it exceeds the current
length, and rejects the write when the division is not exact. -/
theorem single_unlimited_count_inference
    (pre post : List Dim) (u : Dim) (fill : Int) (cells : List (List Nat × Int))
    (buf : List Int)
    (hpre : ∀ d ∈ pre, d.unlimited = false)
    (hpost : ∀ d ∈ post, d.unlimited = false)
    (hu : u.unlimited = true)
    (hP : 0 < ((pre ++ post).map Dim.len).prod) :
    (((pre ++ post).map Dim.len).prod ∣ buf.length →
        Res.map Variable.shape
          (put_values (Variable.mk (pre ++ u :: post) fill cells) buf none none)
          = .ok (pre.map Dim.len
              ++ max u.len (buf.length / ((pre ++ post).map Dim.len).prod)
              :: post.map Dim.len))
    ∧ (¬ ((pre ++ post).map Dim.len).prod ∣ buf.length →
        put_values (Variable.mk (pre ++ u :: post) fill cells) buf none none
          = .err .bufferLen) := by
  have hrank : (Variable.mk (pre ++ u :: post) fill cells).rank
      = (pre ++ u :: post).length := rfl
  constructor
  · intro hdvd
    have hPne : ((pre ++ post).map Dim.len).prod ≠ 0 := Nat.pos_iff_ne_zero.mp hP
    have hmod : buf.length % ((pre ++ post).map Dim.len).prod = 0 :=
      Nat.mod_eq_zero_of_dvd hdvd
    have hPfact : ((pre ++ post).map Dim.len).prod
        = (pre.map Dim.len).prod * (post.map Dim.len).prod := by
      rw [List.map_append, List.prod_append]
    have hprod : (pre.map Dim.len
        ++ buf.length / ((pre ++ post).map Dim.len).prod :: post.map Dim.len).prod
        = buf.length := by
      rw [List.prod_append, List.prod_cons, mul_left_comm, ← hPfact]
      exact Nat.div_mul_cancel hdvd
    have hinfer : inferCounts (pre ++ u :: post)
        (List.replicate (Variable.mk (pre ++ u :: post) fill cells).rank 0) buf.length
        = .ok (pre.map Dim.len
            ++ buf.length / ((pre ++ post).map Dim.len).prod :: post.map Dim.len) := by
      rw [hrank, inferCounts_single pre post u buf.length hpre hpost hu,
        if_pos ⟨hPne, hmod⟩]
    have hbounds : checkWriteBounds (pre ++ u :: post)
        (List.replicate (Variable.mk (pre ++ u :: post) fill cells).rank 0)
        (pre.map Dim.len
          ++ buf.length / ((pre ++ post).map Dim.len).prod :: post.map Dim.len)
        = true := by
      rw [hrank]
      exact checkWriteBounds_middle pre post u _ hu
    rw [put_values_infer_ok _ buf _ hinfer hbounds (le_of_eq hprod)]
    simp only [Res.map, Variable.shape, Variable.rank, hrank]
    rw [growDims_middle pre post u _ hpre hu]
    simp
  · intro hndvd
    have hmodne : buf.length % ((pre ++ post).map Dim.len).prod ≠ 0 :=
      fun h => hndvd (Nat.dvd_of_mod_eq_zero h)
    have hinfer : inferCounts (pre ++ u :: post)
        (List.replicate (Variable.mk (pre ++ u :: post) fill cells).rank 0) buf.length
        = .error .bufferLen := by
      rw [hrank, inferCounts_single pre post u buf.length hpre hpost hu,
        if_neg (fun hc => hmodne hc.2)]
    exact put_values_infer_error _ _ _ hinfer

/-- C2 witness: the one_unlim scenario of the test suite, an unlimited first
axis and a fixed axis of length 2 receiving a 4-element buffer, growing the
unlimited axis to 2. -/
theorem single_unlimited_count_inference_witness :
    Res.map Variable.shape
      (put_values (Variable.mk [Dim.mk 0 true, Dim.mk 2 false] 0 []) [0, 1, 2, 3]
        none none)
      = .ok [2, 2] := by
  have h := (single_unlimited_count_inference [] [Dim.mk 2 false] (Dim.mk 0 true)
      0 [] [0, 1, 2, 3] (by decide) (by decide) (by decide) (by decide)).1 (by decide)
  simpa using h

/-- C3: indexing follows row-major flattening with the last declared axis
varying fastest; for the 6 by 12 variable filled with values row times 12
plus column, the single value at index (5, 3) is 63, the value with no index
is the one at the origin, 0, and a full read returns the buffer unchanged. -/
theorem row_major_index_fetch :
    Res.bind (put_values simpleXY buf72 none none) (fun v => get_value v (some [5, 3]))
      = .ok 63
    ∧ Res.bind (put_values simpleXY buf72 none none) (fun v => get_value v none)
      = .ok 0
    ∧ Res.bind (put_values simpleXY buf72 none none) (fun v => values_to v 72 none none)
      = .ok buf72 :=
  ⟨by decide, by decide, by decide⟩

/-- C4: the length of a variable is the product of its shape, and a
successful write that stays inside the current extent of every axis (so no
unlimited axis grows) leaves the shape unchanged and the equality intact. -/
theorem length_eq_shape_prod :
    (∀ v : Variable, v.len = v.shape.prod)
    ∧ (∀ (v : Variable) (buf : List Int) (start count : List Nat),
        start.length = v.rank → count.length = v.rank →
        count.prod ≤ buf.length →
        withinCurrent v.dims start count = true →
        Res.map Variable.shape (put_values v buf (some start) (some count))
            = .ok v.shape
        ∧ Res.map Variable.len (put_values v buf (some start) (some count))
            = .ok v.shape.prod) := by
  refine ⟨fun v => rfl, fun v buf start count hs hc hbuf hwithin => ?_⟩
  rw [put_values_ok v buf start count hs hc
      (checkWriteBounds_of_within v.dims start count hwithin) hbuf]
  constructor <;>
    simp [Res.map, Variable.shape, Variable.len,
      growDims_of_within v.dims start count hwithin]

/-- C4 witness: writing the full extent of the fixed 6 by 12 variable leaves
its shape at 6 by 12. -/
theorem length_eq_shape_prod_witness :
    Res.map Variable.shape
      (put_values simpleXY (List.replicate 72 0) (some [0, 0]) (some [6, 12]))
      = .ok simpleXY.shape :=
  (length_eq_shape_prod.2 simpleXY (List.replicate 72 0) [0, 0] [6, 12]
    (by decide) (by decide) (by decide) (by decide)).1

/-- C5: under fill mode an allocated but never written cell reads back as the
configured fill value; in the test scenario with fill value 1 and a write of
6 at index 1 only, index 0 reads 1 and index 1 reads 6. -/
theorem fill_value_unwritten_cells :
    (∀ (v : Variable) (idx : List Nat),
        idx.length = v.rank →
        checkReadBounds v.dims idx (List.replicate v.rank 1)
          (List.replicate v.rank 1) = true →
        lookupCell v.cells idx = none →
        get_value v (some idx) = .ok v.fill)
    ∧ Res.bind (put_value fillVar 6 (some [1])) (fun v => get_value v (some [0]))
        = .ok 1
    ∧ Res.bind (put_value fillVar 6 (some [1])) (fun v => get_value v (some [1]))
        = .ok 6 := by
  refine ⟨fun v idx hlen hbounds hnone => ?_, by decide, by decide⟩
  simp only [get_value, Option.getD_some]
  rw [if_neg (by simp [hlen]), if_pos hbounds]
  simp [Variable.readCell, hnone]

/-- C5 witness: the never-written cell 0 of the fill-value scenario reads
back as the fill value. -/
theorem fill_value_unwritten_cells_witness :
    get_value fillVar (some [0]) = .ok fillVar.fill :=
  fill_value_unwritten_cells.1 fillVar [0] (by decide) (by decide) (by decide)

/-- C6: stride values must be strictly positive (zero or negative strides are
rejected with the InvalidStride kind), and the strided read of the 3 by 5 by
9 variable filled with 0 to 134 using stride 2, 1, 3 over the full extent
produces exactly the 30-element interleaved golden subsequence, counts being
computed against the strided extent of each axis. -/
theorem strided_positive_and_golden :
    (∀ (v : Variable) (bufLen : Nat) (start? count? : Option (List Nat))
        (stride : List Int),
        stride.length = v.rank →
        (∃ t ∈ stride, t ≤ 0) →
        values_strided_to v bufLen start? count? stride = .err .invalidStride)
    ∧ Res.bind (put_values var353 buf135 none none)
        (fun v => values_strided_to v 30 none none [2, 1, 3])
        = .ok [0, 3, 6, 9, 12, 15, 18, 21, 24, 27, 30, 33, 36, 39, 42,
               90, 93, 96, 99, 102, 105, 108, 111, 114, 117, 120, 123, 126, 129, 132] := by
  refine ⟨fun v bufLen start? count? stride hslen hex => ?_, by decide⟩
  simp only [values_strided_to]
  rw [if_neg (by simp [hslen]), all_pos_eq_false stride hex]
  simp

/-- C6 witness: a zero stride on the first axis of the strided scenario is
rejected as InvalidStride. -/
theorem strided_positive_and_golden_witness :
    values_strided_to var353 30 none none [0, 1, 3] = .err .invalidStride :=
  strided_positive_and_golden.1 var353 30 none none [0, 1, 3] (by decide) (by decide)

/-- C7: a zero-rank variable accepts only an empty index, count and stride
and always addresses its single element; a nonempty count is a dimension
mismatch, a one-element start with a non-empty buffer is rejected as well,
and the stored value is left unchanged. -/
theorem scalar_variable_addressing :
    (∀ (c : List Nat) (buf : List Int), c ≠ [] →
        put_values scalarVar buf none (some c) = .err .dimensionMismatch)
    ∧ Res.map (fun v => v.readCell []) (put_values scalarVar [8] (some []) (some []))
        = .ok 8
    ∧ put_values scalarVar [10] (some [1]) none = .err .dimensionMismatch
    ∧ get_value scalarVar none = .ok 6 := by
  refine ⟨fun c buf hc => ?_, by decide, by decide, by decide⟩
  have hc0 : c.length ≠ 0 := fun h => hc (List.length_eq_zero.mp h)
  simp only [put_values, countForWrite, Option.getD_none]
  rw [if_neg (by simp), if_neg (show ¬(c.length = scalarVar.rank) from fun h => hc0 h)]

/-- C7 witness: a count of length one on the scalar variable is a dimension
mismatch. -/
theorem scalar_variable_addressing_witness :
    put_values scalarVar [0] none (some [1]) = .err .dimensionMismatch :=
  scalar_variable_addressing.1 [1] [0] (by decide)

/-- C8: a read into a caller-supplied buffer shorter than the product of the
requested counts fails fatally as a contract violation, a panic rather than
a recoverable error, both for an explicit and for a defaulted count. -/
theorem read_buffer_too_small_panics :
    (∀ (v : Variable) (bufLen : Nat) (count : List Nat),
        count.length = v.rank →
        checkReadBounds v.dims (List.replicate v.rank 0) count
          (List.replicate v.rank 1) = true →
        bufLen < count.prod →
        values_to v bufLen none (some count) = .panicked)
    ∧ (∀ (v : Variable) (bufLen : Nat),
        bufLen < v.len →
        values_to v bufLen none none = .panicked) := by
  constructor
  · intro v bufLen count hc hbounds hlt
    simp only [values_to, Option.getD_none]
    rw [if_neg (by simp), if_pos hc]
    simp [hbounds, hlt]
  · intro v bufLen hlt
    simp only [values_to, Option.getD_none, Variable.rank]
    rw [if_neg (by simp), fixedCounts_zero v.dims, checkReadBounds_full v.dims]
    simp [show bufLen < (v.dims.map Dim.len).prod from hlt]

/-- C8 witness: a 10-element buffer cannot receive the 72 elements of the
6 by 12 variable; the defaulted read panics. -/
theorem read_buffer_too_small_panics_witness :
    values_to simpleXY 10 none none = .panicked :=
  read_buffer_too_small_panics.2 simpleXY 10 (by decide)

/-- C10: short_name_to_bytes returns a zero-initialised array of NC_MAX_NAME
plus one bytes whose leading bytes are exactly the name whenever the name
fits and contains no zero byte, and rejects longer names with the NC_EMAXNAME
engine code regardless of their contents. -/
theorem short_name_to_bytes_spec :
    (∀ name : List Nat, name.length ≤ NC_MAX_NAME → (∀ b ∈ name, b ≠ 0) →
        short_name_to_bytes name
          = .ok (name ++ List.replicate (NC_MAX_NAME + 1 - name.length) 0)
        ∧ (name ++ List.replicate (NC_MAX_NAME + 1 - name.length) 0).length
            = NC_MAX_NAME + 1)
    ∧ (∀ name : List Nat, NC_MAX_NAME < name.length →
        short_name_to_bytes name = .err (.engineError NC_EMAXNAME)) := by
  constructor
  · intro name hlen hz
    constructor
    · simp only [short_name_to_bytes]
      rw [if_neg (Nat.not_lt.mpr hlen), firstZeroPos_eq_none name hz]
      simp
    · simp only [List.length_append, List.length_replicate]
      omega
  · intro name hlen
    simp [short_name_to_bytes, hlen]

/-- C10 witness: a two-byte name is padded with zeros to 257 bytes. -/
theorem short_name_to_bytes_spec_witness :
    short_name_to_bytes [104, 105]
      = .ok ([104, 105] ++ List.replicate (NC_MAX_NAME + 1 - [104, 105].length) 0) :=
  (short_name_to_bytes_spec.1 [104, 105] (by decide) (by decide)).1

end Netcdf
